import Mathlib

/-!
Verification development for the f1-race-replay repository.

This file gives a shallow embedding (over `ℚ`, `ℤ` and `ℕ`) of the
track-geometry construction and time-synchronized playback engine:

* the playback clock of `QualifyingReplay` (`src/src/interfaces/qualifying.py`:
  `on_update`, `on_key_press`, `on_mouse_press`, `is_lap_complete`),
* the curve resampler `QualifyingReplay._interpolate_points` (numpy `interp`
  over an index-uniform parameter grid),
* the viewport transform `QualifyingReplay.update_scaling` and
  `QualifyingReplay.world_to_screen`,
* the track builder `build_track_from_example_lap` and the DRS-zone scanner
  `plotDRSzones` (`src/src/ui_components.py`),
* the event extractor `extract_race_events` and the speed buttons of
  `RaceControlsComponent.on_mouse_press` (`src/src/ui_components.py`).

Python floats are modelled as exact rationals, Python `int` as `ℤ`,
Python lists / numpy arrays as Lean lists.
-/

namespace F1Replay

/-- Frames-per-second constant.  Modelled from the spec: the module
`src/f1_data.py` (which exports `FPS`) is not under `src/`; §4.6 of the spec
fixes the assumed sample rate at 25 frames per second ("every 25 frames =
1 second"). -/
def FPS : ℚ := 25

/-- Python `round` (banker's rounding: ties go to the even integer). -/
def pyRound (q : ℚ) : ℤ :=
  let f := ⌊q⌋
  let r := q - (f : ℚ)
  if r < 1/2 then f
  else if 1/2 < r then f + 1
  else if f % 2 = 0 then f else f + 1

/-- Python `int()` applied to a float: truncation toward zero. -/
def pyTruncInt (q : ℚ) : ℤ := if 0 ≤ q then ⌊q⌋ else -⌊-q⌋

/-- `np.searchsorted(times, v, side="right")` on a sorted array returns the
insertion index that keeps the array sorted, i.e. the number of entries that
are `≤ v`.  We model it by that count; all uses in the source are on the
(sorted) telemetry timestamp array. -/
def searchsortedRight (times : List ℚ) (v : ℚ) : ℕ :=
  times.countP (fun t => decide (t ≤ v))

/-- Playback-relevant state of the `QualifyingReplay` window
(`src/src/interfaces/qualifying.py`).  `loaded` stands for
`loaded_telemetry is not None`; `times` is the cached `_times` array
(`[]` models `None`/empty). -/
structure PlaybackState where
  chart_active : Bool
  loaded : Bool
  times : List ℚ
  n_frames : ℕ
  frame_index : ℤ
  play_time : ℚ
  play_start_t : ℚ
  playback_speed : ℚ
  paused : Bool
  show_comparison_telemetry : Bool
  toggle_drs_zones : Bool
deriving DecidableEq, Repr

/-- `QualifyingReplay.on_update` (lines 977–1003): advance `play_time` by
`delta_time × playback_speed`, resolve `frame_index` from the timestamp
array (clamping only a local copy of `play_time`), auto-pause on the final
frame; fixed-FPS fallback when no timestamps are available. -/
def on_update (s : PlaybackState) (delta_time : ℚ) : PlaybackState :=
  if ¬s.chart_active ∨ ¬s.loaded then s
  else if s.paused then s
  else
    let play_time := s.play_time + delta_time * s.playback_speed
    match s.times with
    | t0 :: rest =>
      let tlast := (t0 :: rest).getLastD 0
      let clamped := min (max play_time t0) tlast
      let idx : ℤ := (searchsortedRight s.times clamped : ℤ) - 1
      let fi := max 0 (min idx ((s.times.length : ℤ) - 1))
      { s with play_time := play_time, frame_index := fi,
               paused := if (s.n_frames : ℤ) - 1 ≤ fi then true else s.paused }
    | [] =>
      let fi := min ((s.n_frames : ℤ) - 1)
                    (s.frame_index + pyRound (delta_time * FPS * s.playback_speed))
      { s with play_time := play_time, frame_index := fi,
               paused := if (s.n_frames : ℤ) - 1 ≤ fi then true else s.paused }

/-- `QualifyingReplay.is_lap_complete` (lines 791–793). -/
def is_lap_complete (s : PlaybackState) : Bool :=
  s.chart_active && decide (0 < s.n_frames) && decide ((s.n_frames : ℤ) - 1 ≤ s.frame_index)

/-- Keyboard inputs handled by `QualifyingReplay.on_key_press`. -/
inductive Key
  | R | C | D | SPACE | RIGHT | LEFT | UP | DOWN | KEY_1 | KEY_2 | KEY_3 | KEY_4
deriving DecidableEq, Repr

/-- `QualifyingReplay.on_key_press` (lines 795–845): R/C/D are handled even
when the lap is complete; every other control is ignored once
`is_lap_complete` holds. -/
def on_key_press (s : PlaybackState) (k : Key) : PlaybackState :=
  match k with
  | .R => { s with frame_index := 0, play_time := s.play_start_t,
                   playback_speed := 1, paused := true }
  | .C => { s with show_comparison_telemetry := !s.show_comparison_telemetry }
  | .D => { s with toggle_drs_zones := !s.toggle_drs_zones }
  | k =>
    if is_lap_complete s then s
    else
      match k with
      | .SPACE => { s with paused := !s.paused }
      | .RIGHT => { s with frame_index := min (s.frame_index + 10) (max 0 ((s.n_frames : ℤ) - 1)) }
      | .LEFT => { s with frame_index := max (s.frame_index - 10) 0 }
      | .UP => { s with playback_speed := s.playback_speed * 2 }
      | .DOWN => { s with playback_speed := max (1/10) (s.playback_speed / 2) }
      | .KEY_1 => { s with playback_speed := 1/2 }
      | .KEY_2 => { s with playback_speed := 1 }
      | .KEY_3 => { s with playback_speed := 2 }
      | .KEY_4 => { s with playback_speed := 4 }
      | _ => s

/-- Transport-control buttons of `RaceControlsComponent`. -/
inductive ControlButton
  | rewind | play_pause | forward | speed_increase | speed_decrease
deriving DecidableEq, Repr

/-- `RaceControlsComponent.on_mouse_press` (`src/src/ui_components.py`,
lines 1559–1587), restricted to the state it mutates on the window. -/
def race_controls_on_mouse_press (s : PlaybackState) (b : ControlButton) : PlaybackState :=
  match b with
  | .rewind => { s with frame_index := max 0 (s.frame_index - 10) }
  | .play_pause => { s with paused := !s.paused }
  | .forward => { s with frame_index := min ((s.n_frames : ℤ) - 1) (s.frame_index + 10) }
  | .speed_increase =>
      if s.playback_speed < 1024 then { s with playback_speed := s.playback_speed * 2 } else s
  | .speed_decrease => { s with playback_speed := max (1/10) (s.playback_speed / 2) }

/-- `QualifyingReplay.on_mouse_press` (lines 772–789): clicks on the race
controls are forwarded only while the lap is not complete. -/
def on_mouse_press (s : PlaybackState) (b : ControlButton) : PlaybackState :=
  if is_lap_complete s then s else race_controls_on_mouse_press s b

/-- Pressing the speed-up key (UP) once. -/
def pressUp (s : PlaybackState) : PlaybackState := on_key_press s .UP

/-- The scenario state of claim C1: timestamps `[0, 0.04, 0.08, 0.12]`,
speed 2, unpaused, at the first frame. -/
def scenarioState : PlaybackState :=
  { chart_active := true, loaded := true,
    times := [0, 1/25, 2/25, 3/25], n_frames := 4,
    frame_index := 0, play_time := 0, play_start_t := 0,
    playback_speed := 2, paused := false,
    show_comparison_telemetry := true, toggle_drs_zones := true }

/-- **C1.** On frames with timestamps `[0.0, 0.04, 0.08, 0.12]`, playback
speed 2.0, unpaused, `play_time = 0`, `frame_index = 0`, a single
`on_update` with elapsed time 0.1 s yields `frame_index = 3` and
`paused = true` (auto-pause on reaching the final frame). -/
theorem advance_scenario_reaches_final_frame :
    (on_update scenarioState (1/10)).frame_index = 3 ∧
    (on_update scenarioState (1/10)).paused = true := by
  with_unfolding_all decide

/-- In a sorted list, an element is `≤ v` exactly when its index is below the
count of elements `≤ v`; this characterises `searchsortedRight`. -/
theorem getElem_le_iff_lt_countP (l : List ℚ) (hl : l.Sorted (· ≤ ·)) (v : ℚ) :
    ∀ j (hj : j < l.length),
      (l[j] ≤ v ↔ j < l.countP (fun t => decide (t ≤ v))) := by
  induction l with
  | nil => intro j hj; simp at hj
  | cons a t ih =>
    have hall : ∀ x ∈ t, a ≤ x := (List.sorted_cons.mp hl).1
    have hst : t.Sorted (· ≤ ·) := (List.sorted_cons.mp hl).2
    intro j hj
    by_cases ha : a ≤ v
    · have hc : (a :: t).countP (fun t => decide (t ≤ v)) =
          t.countP (fun t => decide (t ≤ v)) + 1 := by
        simp [List.countP_cons, ha]
      cases j with
      | zero => simpa [hc] using ha
      | succ j =>
        have hj' : j < t.length := by simpa using hj
        have := ih hst j hj'
        simpa [hc, Nat.succ_lt_succ_iff] using this
    · have htz : t.countP (fun t => decide (t ≤ v)) = 0 := by
        rw [List.countP_eq_zero]
        intro x hx
        have : ¬ x ≤ v := fun hxv => ha (le_trans (hall x hx) hxv)
        simpa using this
      have hc : (a :: t).countP (fun t => decide (t ≤ v)) = 0 := by
        simp [List.countP_cons, ha, htz]
      cases j with
      | zero => simpa [hc] using ha
      | succ j =>
        have hj' : j < t.length := by simpa using hj
        have hmem : t[j] ∈ t := List.getElem_mem hj'
        have : ¬ t[j] ≤ v := fun hxv => ha (le_trans (hall _ hmem) hxv)
        simpa [hc] using this

/-- The head of a sorted nonempty list is `≤` its last element. -/
theorem sorted_headI_le_getLastD (l : List ℚ) (hl : l.Sorted (· ≤ ·)) (hne : l ≠ []) :
    l.headI ≤ l.getLastD 0 := by
  cases l with
  | nil => exact absurd rfl hne
  | cons a t =>
    cases t with
    | nil => simp
    | cons b u =>
      have hall : ∀ x ∈ b :: u, a ≤ x := (List.sorted_cons.mp hl).1
      have hmem : (b :: u).getLast (by simp) ∈ b :: u := List.getLast_mem _
      have : (a :: b :: u).getLastD 0 = (b :: u).getLast (by simp) := by
        simp [List.getLastD_eq_getLast?, List.getLast?_eq_getLast]
      rw [List.headI, this]
      exact hall _ hmem

/-- **C2 (counterexample).** The claim says `advance` clamps the stored
`play_time` into the timestamp range.  In the C1 scenario the stored
`play_time` after one `advance(0.1)` is `0.2`, strictly above the last
timestamp `0.12`: only a local copy is clamped. -/
theorem advance_leaves_play_time_unclamped :
    (on_update scenarioState (1/10)).play_time = 1/5 ∧
    ¬ (on_update scenarioState (1/10)).play_time ≤ 3/25 := by
  with_unfolding_all decide

/-- **C2 (amended).** After an unpaused `advance` on loaded frames with sorted
nonempty timestamps, the stored `play_time` is the unclamped
`play_time + dt × playback_speed`; only a temporary copy is clamped into
`[timestamps[0], timestamps[last]]`, and `frame_index` is resolved as the
greatest index whose timestamp is ≤ that clamped value. -/
theorem advance_resolves_greatest_index (s : PlaybackState) (dt : ℚ)
    (hact : s.chart_active = true) (hload : s.loaded = true) (hpause : s.paused = false)
    (hne : s.times ≠ []) (hsort : s.times.Sorted (· ≤ ·)) :
    (on_update s dt).play_time = s.play_time + dt * s.playback_speed ∧
    ∃ i : ℕ, (on_update s dt).frame_index = (i : ℤ) ∧ i < s.times.length ∧
      s.times.getD i 0 ≤
        min (max (s.play_time + dt * s.playback_speed) s.times.headI) (s.times.getLastD 0) ∧
      ∀ j, j < s.times.length →
        s.times.getD j 0 ≤
          min (max (s.play_time + dt * s.playback_speed) s.times.headI) (s.times.getLastD 0) →
        j ≤ i := by
  obtain ⟨ca, lo, times, nf, fi0, pt0, pst, spd, pau, sct, tdz⟩ := s
  simp only at hact hload hpause hne hsort ⊢
  subst hact; subst hload; subst hpause
  obtain ⟨t0, rest, rfl⟩ := List.exists_cons_of_ne_nil hne
  simp only [List.headI]
  set pt := pt0 + dt * spd with hpt
  set c := min (max pt t0) ((t0 :: rest).getLastD 0) with hc
  have ht0c : t0 ≤ c := by
    have h1 : t0 ≤ max pt t0 := le_max_right _ _
    have h2 : t0 ≤ (t0 :: rest).getLastD 0 := by
      simpa [List.headI] using
        sorted_headI_le_getLastD (t0 :: rest) hsort (by simp)
    exact le_min h1 h2
  set k := (t0 :: rest).countP (fun t => decide (t ≤ c)) with hk
  have hk_pos : 0 < k := by
    have : k = rest.countP (fun t => decide (t ≤ c)) + 1 := by
      rw [hk]; simp [List.countP_cons, ht0c]
    omega
  have hk_le : k ≤ (t0 :: rest).length := List.countP_le_length _
  have hplay : (on_update
      ⟨true, true, t0 :: rest, nf, fi0, pt0, pst, spd, false, sct, tdz⟩ dt).play_time
      = pt := rfl
  have hframe : (on_update
      ⟨true, true, t0 :: rest, nf, fi0, pt0, pst, spd, false, sct, tdz⟩ dt).frame_index
      = max 0 (min ((k : ℤ) - 1) (((t0 :: rest).length : ℤ) - 1)) := rfl
  have hfi : max 0 (min ((k : ℤ) - 1) (((t0 :: rest).length : ℤ) - 1)) = (k : ℤ) - 1 := by
    have h1 := hk_le
    have h2 := hk_pos
    simp only [List.length_cons] at h1 ⊢
    omega
  refine ⟨hplay, k - 1, ?_, by omega, ?_, ?_⟩
  · rw [hframe, hfi]
    have := hk_pos
    omega
  · have hklt : k - 1 < (t0 :: rest).length := by omega
    have := (getElem_le_iff_lt_countP (t0 :: rest) hsort c (k - 1) hklt).mpr (by omega)
    rwa [List.getD_eq_getElem?_getD, List.getElem?_eq_getElem hklt, Option.getD_some]
  · intro j hj hjc
    have hj' : (t0 :: rest)[j] ≤ c := by
      rwa [List.getD_eq_getElem?_getD, List.getElem?_eq_getElem hj, Option.getD_some] at hjc
    have := (getElem_le_iff_lt_countP (t0 :: rest) hsort c j hj).mp hj'
    omega

/-- Witness for `advance_resolves_greatest_index` at the C1 scenario state. -/
theorem advance_resolves_greatest_index_witness :
    (on_update scenarioState (1/10)).play_time =
      scenarioState.play_time + (1/10) * scenarioState.playback_speed ∧
    ∃ i : ℕ, (on_update scenarioState (1/10)).frame_index = (i : ℤ) ∧
      i < scenarioState.times.length ∧
      scenarioState.times.getD i 0 ≤
        min (max (scenarioState.play_time + (1/10) * scenarioState.playback_speed)
          scenarioState.times.headI) (scenarioState.times.getLastD 0) ∧
      ∀ j, j < scenarioState.times.length →
        scenarioState.times.getD j 0 ≤
          min (max (scenarioState.play_time + (1/10) * scenarioState.playback_speed)
            scenarioState.times.headI) (scenarioState.times.getLastD 0) →
        j ≤ i :=
  advance_resolves_greatest_index scenarioState (1/10) rfl rfl rfl
    (by with_unfolding_all decide) (by with_unfolding_all decide)

/-- The C1/C2 scenario state after playback has auto-paused on the last
frame: `frame_index = n_frames - 1 = 3`. -/
def completedState : PlaybackState :=
  { scenarioState with frame_index := 3, play_time := 1/5, paused := true }

/-- **C3 (counterexample).** The claim says that after the final frame is
reached, step and pause-toggle inputs still work.  In the completed state a
LEFT step leaves `frame_index` at 3 instead of moving it backwards, SPACE
leaves `paused` unchanged, and a click on the play/pause control is ignored:
`on_key_press` and `on_mouse_press` gate all transport controls behind
`is_lap_complete`. -/
theorem completed_lap_ignores_step_and_pause :
    (on_key_press completedState .LEFT).frame_index = 3 ∧
    (on_key_press completedState .SPACE).paused = completedState.paused ∧
    on_mouse_press completedState .play_pause = completedState := by
  with_unfolding_all decide

/-- **C3 (amended).** Once the lap is complete, all step/seek/pause/speed
inputs are ignored (keyboard and race-control clicks); only restart (R),
the comparison toggle (C) and the DRS toggle (D) remain active.  Restart
moves `frame_index` back to 0, re-enabling playback from the start. -/
theorem lap_complete_disables_controls (s : PlaybackState)
    (h : is_lap_complete s = true) :
    (∀ k, k ≠ Key.R → k ≠ Key.C → k ≠ Key.D → on_key_press s k = s) ∧
    (∀ b, on_mouse_press s b = s) ∧
    (on_key_press s .R).frame_index = 0 ∧
    (on_key_press s .R).paused = true ∧
    (on_key_press s .R).playback_speed = 1 ∧
    (on_key_press s .R).play_time = s.play_start_t := by
  refine ⟨?_, ?_, rfl, rfl, rfl, rfl⟩
  · intro k h1 h2 h3
    cases k with
    | R => exact absurd rfl h1
    | C => exact absurd rfl h2
    | D => exact absurd rfl h3
    | SPACE => simp [on_key_press, h]
    | RIGHT => simp [on_key_press, h]
    | LEFT => simp [on_key_press, h]
    | UP => simp [on_key_press, h]
    | DOWN => simp [on_key_press, h]
    | KEY_1 => simp [on_key_press, h]
    | KEY_2 => simp [on_key_press, h]
    | KEY_3 => simp [on_key_press, h]
    | KEY_4 => simp [on_key_press, h]
  · intro b
    simp [on_mouse_press, h]

/-- Witness for `lap_complete_disables_controls` at the completed scenario
state. -/
theorem lap_complete_disables_controls_witness :
    on_key_press completedState .RIGHT = completedState ∧
    on_mouse_press completedState .forward = completedState :=
  ⟨(lap_complete_disables_controls completedState (by with_unfolding_all decide)).1
      .RIGHT (by decide) (by decide) (by decide),
   (lap_complete_disables_controls completedState (by with_unfolding_all decide)).2.1
      .forward⟩

/-- The C8 scenario state: playback speed 1.0, lap not complete. -/
def speedState : PlaybackState := { scenarioState with playback_speed := 1 }

/-- **C8 (counterexample).** The claim says eight doublings starting from
`playback_speed = 1.0` yield exactly `128.0`; the code yields `2^8 = 256.0`
(seven doublings yield `128.0`). -/
theorem eight_doublings_give_256 :
    (pressUp^[8] speedState).playback_speed = 256 ∧ (256 : ℚ) ≠ 128 := by
  with_unfolding_all decide

/-- **C8 (amended).** No speed-change operation (keyboard or race-control
click) ever takes `playback_speed` below `0.1` when it starts at or above
`0.1`; halving is floored at `0.1`.  Repeated doubling from `1.0` is exact:
seven UP presses yield `128.0` and eight yield `256.0`. -/
theorem speed_floor_and_exact_doubling :
    (∀ s k, 1/10 ≤ s.playback_speed → 1/10 ≤ (on_key_press s k).playback_speed) ∧
    (∀ s b, 1/10 ≤ s.playback_speed →
      1/10 ≤ (race_controls_on_mouse_press s b).playback_speed) ∧
    (pressUp^[7] speedState).playback_speed = 128 ∧
    (pressUp^[8] speedState).playback_speed = 256 := by
  refine ⟨?_, ?_, by with_unfolding_all decide, by with_unfolding_all decide⟩
  · intro s k h
    cases k with
    | R => norm_num [on_key_press]
    | C => simpa [on_key_press] using h
    | D => simpa [on_key_press] using h
    | SPACE => simp only [on_key_press]; split <;> simpa using h
    | RIGHT => simp only [on_key_press]; split <;> simpa using h
    | LEFT => simp only [on_key_press]; split <;> simpa using h
    | UP =>
      simp only [on_key_press]; split
      · simpa using h
      · simp only []; nlinarith
    | DOWN =>
      simp only [on_key_press]; split
      · simpa using h
      · exact le_max_left _ _
    | KEY_1 => simp only [on_key_press]; split <;> [simpa using h; norm_num]
    | KEY_2 => simp only [on_key_press]; split <;> [simpa using h; norm_num]
    | KEY_3 => simp only [on_key_press]; split <;> [simpa using h; norm_num]
    | KEY_4 => simp only [on_key_press]; split <;> [simpa using h; norm_num]
  · intro s b h
    cases b with
    | rewind => simpa [race_controls_on_mouse_press] using h
    | play_pause => simpa [race_controls_on_mouse_press] using h
    | forward => simpa [race_controls_on_mouse_press] using h
    | speed_increase =>
      simp only [race_controls_on_mouse_press]; split
      · simp only []; nlinarith
      · simpa using h
    | speed_decrease => exact le_max_left _ _

/-- Witness for `speed_floor_and_exact_doubling`: halving from speed 1.0
stays at or above the floor. -/
theorem speed_floor_witness :
    1/10 ≤ (on_key_press speedState .DOWN).playback_speed :=
  speed_floor_and_exact_doubling.1 speedState .DOWN (by norm_num [speedState, scenarioState])

/-! ### Curve resampling (`QualifyingReplay._interpolate_points`) -/

/-- `np.linspace(0, 1, count)`: `count` evenly spaced rationals from 0 to 1
(`[0]` for `count = 1`, `[]` for `count = 0`). -/
def linspace (count : ℕ) : List ℚ :=
  (List.range count).map (fun k : ℕ => (k : ℚ) / ((count : ℚ) - 1))

/-- Interior walk of `np.interp`: `x0, f0` is the previous knot; on the
first segment whose right knot is `≥ x`, interpolate linearly. -/
def interpGo (x : ℚ) : ℚ → ℚ → List (ℚ × ℚ) → ℚ
  | _, f0, [] => f0
  | x0, f0, (x1, f1) :: rest =>
      if x ≤ x1 then f0 + (f1 - f0) * (x - x0) / (x1 - x0)
      else interpGo x x1 f1 rest

/-- `np.interp(x, xp, fp)` on increasing knots `pts = xp.zip fp`: linear
interpolation between knots, constant extension with the first value below
the first knot and with the last value at or above the last knot (at the
last knot itself the segment formula also yields the last value, so the
shortcut agrees with numpy). -/
def np_interp (x : ℚ) (pts : List (ℚ × ℚ)) : ℚ :=
  match pts with
  | [] => 0
  | (x0, f0) :: rest =>
    if x ≤ x0 then f0
    else
      match rest.getLast? with
      | some (xl, fl) => if xl ≤ x then fl else interpGo x x0 f0 rest
      | none => f0

/-- `QualifyingReplay._interpolate_points` (lines 739–744): resample the
polyline `(xs, ys)` to `interp_points` points, the parameter assigned by
index position. -/
def interpolate_points (xs ys : List ℚ) (interp_points : ℕ := 2000) : List (ℚ × ℚ) :=
  let t_old := linspace xs.length
  let t_new := linspace interp_points
  t_new.map (fun t => (np_interp t (t_old.zip xs), np_interp t (t_old.zip ys)))

theorem linspace_length (count : ℕ) : (linspace count).length = count := by
  simp [linspace]

theorem linspace_head? (count : ℕ) (h : 1 ≤ count) :
    (linspace count).head? = some 0 := by
  obtain ⟨m, rfl⟩ : ∃ m, count = m + 1 := ⟨count - 1, by omega⟩
  rw [linspace, List.range_succ_eq_map]
  simp

theorem linspace_getLast? (count : ℕ) (h : 2 ≤ count) :
    (linspace count).getLast? = some 1 := by
  obtain ⟨m, rfl⟩ : ∃ m, count = m + 1 := ⟨count - 1, by omega⟩
  rw [linspace, List.range_succ, List.map_append]
  simp only [List.map_cons, List.map_nil, List.getLast?_concat]
  have hm : (m : ℚ) ≠ 0 := Nat.cast_ne_zero.mpr (by omega)
  have hden : ((m + 1 : ℕ) : ℚ) - 1 = (m : ℚ) := by push_cast; ring
  simp [hden, div_self hm]

theorem zip_head? {α β : Type} (l₁ : List α) (l₂ : List β) (a : α) (b : β)
    (h₁ : l₁.head? = some a) (h₂ : l₂.head? = some b) :
    (l₁.zip l₂).head? = some (a, b) := by
  cases l₁ with
  | nil => simp at h₁
  | cons x t₁ =>
    cases l₂ with
    | nil => simp at h₂
    | cons y t₂ =>
      simp only [List.head?_cons, Option.some.injEq] at h₁ h₂
      subst h₁; subst h₂
      simp [List.zip_cons_cons]

theorem zip_getLast? {α β : Type} :
    ∀ (l₁ : List α) (l₂ : List β), l₁.length = l₂.length →
      ∀ (a : α) (b : β), l₁.getLast? = some a → l₂.getLast? = some b →
      (l₁.zip l₂).getLast? = some (a, b) := by
  intro l₁
  induction l₁ with
  | nil => intro l₂ _ a b h₁ _; simp at h₁
  | cons x t₁ ih =>
    intro l₂ hlen a b h₁ h₂
    cases l₂ with
    | nil => simp at hlen
    | cons y t₂ =>
      cases t₁ with
      | nil =>
        have ht₂ : t₂ = [] := by simpa using hlen
        subst ht₂
        simp only [List.getLast?_singleton, Option.some.injEq] at h₁ h₂
        subst h₁; subst h₂
        simp [List.zip_cons_cons]
      | cons x' t₁' =>
        cases t₂ with
        | nil => simp at hlen
        | cons y' t₂' =>
          have hlen' : (x' :: t₁').length = (y' :: t₂').length := by simpa using hlen
          have h₁' : (x' :: t₁').getLast? = some a := by
            simpa [List.getLast?_cons_cons] using h₁
          have h₂' : (y' :: t₂').getLast? = some b := by
            simpa [List.getLast?_cons_cons] using h₂
          have := ih (y' :: t₂') hlen' a b h₁' h₂'
          rw [List.zip_cons_cons]
          cases hz : (x' :: t₁').zip (y' :: t₂') with
          | nil => simp [List.zip_cons_cons] at hz
          | cons p ps =>
            rw [List.getLast?_cons_cons]
            rw [hz] at this
            exact this

/-- `np_interp` returns the first value at or below the first knot. -/
theorem np_interp_head (pts : List (ℚ × ℚ)) (x0 f0 x : ℚ)
    (hh : pts.head? = some (x0, f0)) (hx : x ≤ x0) : np_interp x pts = f0 := by
  cases pts with
  | nil => simp at hh
  | cons p rest =>
    obtain ⟨px, pf⟩ := p
    simp only [List.head?_cons, Option.some.injEq, Prod.mk.injEq] at hh
    obtain ⟨rfl, rfl⟩ := hh
    simp [np_interp, hx]

/-- `np_interp` returns the last value at or above the last knot. -/
theorem np_interp_last (pts : List (ℚ × ℚ)) (x0 f0 xl fl x : ℚ)
    (hh : pts.head? = some (x0, f0)) (hl : pts.getLast? = some (xl, fl))
    (hx0 : x0 < x) (hxl : xl ≤ x) : np_interp x pts = fl := by
  cases pts with
  | nil => simp at hh
  | cons p rest =>
    obtain ⟨px, pf⟩ := p
    simp only [List.head?_cons, Option.some.injEq, Prod.mk.injEq] at hh
    obtain ⟨rfl, rfl⟩ := hh
    cases hr : rest.getLast? with
    | none =>
      have : rest = [] := List.getLast?_eq_none_iff.mp hr
      subst this
      simp only [List.getLast?_singleton, Option.some.injEq, Prod.mk.injEq] at hl
      obtain ⟨rfl, rfl⟩ := hl
      simp [np_interp, not_le.mpr hx0]
    | some q =>
      obtain ⟨qx, qf⟩ := q
      have hrne : rest ≠ [] := by
        intro hcon; rw [hcon] at hr; simp at hr
      obtain ⟨r, rest', rfl⟩ := List.exists_cons_of_ne_nil hrne
      have hl' : (r :: rest').getLast? = some (xl, fl) := by
        simpa [List.getLast?_cons_cons] using hl
      rw [hr] at hl'
      simp only [Option.some.injEq, Prod.mk.injEq] at hl'
      obtain ⟨rfl, rfl⟩ := hl'
      simp [np_interp, not_le.mpr hx0, hr, hxl]

/-- **C7.** For every source polyline with at least 2 points (parallel `x`/`y`
arrays of equal length) and every requested count ≥ 2, `_interpolate_points`
returns exactly `count` points, the first equal to the source's first point
and the last equal to the source's last point (exactly, hence within any
floating tolerance). -/
theorem interpolate_points_endpoints (xs ys : List ℚ) (count : ℕ)
    (h2 : 2 ≤ xs.length) (hlen : xs.length = ys.length) (hc : 2 ≤ count) :
    (interpolate_points xs ys count).length = count ∧
    (interpolate_points xs ys count).head? = some (xs.headI, ys.headI) ∧
    (interpolate_points xs ys count).getLast? = some (xs.getLastD 0, ys.getLastD 0) := by
  have hxne : xs ≠ [] := by
    intro hcon; rw [hcon] at h2; simp at h2
  have hyne : ys ≠ [] := by
    intro hcon; rw [hcon] at hlen; rw [hlen] at h2; simp at h2
  have hxh : xs.head? = some xs.headI := by
    cases xs with
    | nil => exact absurd rfl hxne
    | cons a t => simp
  have hyh : ys.head? = some ys.headI := by
    cases ys with
    | nil => exact absurd rfl hyne
    | cons a t => simp
  have hxl : xs.getLast? = some (xs.getLastD 0) := by
    obtain ⟨a, t, rfl⟩ := List.exists_cons_of_ne_nil hxne
    have hb := List.getLast?_eq_getLast (a :: t) (by simp)
    rw [List.getLastD_eq_getLast?, hb]
    rfl
  have hyl : ys.getLast? = some (ys.getLastD 0) := by
    obtain ⟨a, t, rfl⟩ := List.exists_cons_of_ne_nil hyne
    have hb := List.getLast?_eq_getLast (a :: t) (by simp)
    rw [List.getLastD_eq_getLast?, hb]
    rfl
  have hth : (linspace xs.length).head? = some 0 := linspace_head? _ (by omega)
  have htl : (linspace xs.length).getLast? = some 1 := linspace_getLast? _ h2
  have htlen_x : (linspace xs.length).length = xs.length := linspace_length _
  have htlen_y : (linspace xs.length).length = ys.length := by rw [htlen_x, hlen]
  have hzxh : ((linspace xs.length).zip xs).head? = some (0, xs.headI) :=
    zip_head? _ _ _ _ hth hxh
  have hzyh : ((linspace xs.length).zip ys).head? = some (0, ys.headI) :=
    zip_head? _ _ _ _ hth hyh
  have hzxl : ((linspace xs.length).zip xs).getLast? = some (1, xs.getLastD 0) :=
    zip_getLast? _ _ htlen_x _ _ htl hxl
  have hzyl : ((linspace xs.length).zip ys).getLast? = some (1, ys.getLastD 0) :=
    zip_getLast? _ _ htlen_y _ _ htl hyl
  refine ⟨?_, ?_, ?_⟩
  · simp [interpolate_points, linspace_length]
  · rw [interpolate_points]
    simp only [List.head?_map, linspace_head? count (by omega), Option.map_some,
      Option.map_some']
    rw [np_interp_head _ _ _ _ hzxh le_rfl, np_interp_head _ _ _ _ hzyh le_rfl]
  · rw [interpolate_points]
    simp only [List.getLast?_map, linspace_getLast? count hc, Option.map_some,
      Option.map_some']
    rw [np_interp_last _ _ _ _ _ _ hzxh hzxl one_pos le_rfl,
        np_interp_last _ _ _ _ _ _ hzyh hzyl one_pos le_rfl]

/-- Witness for `interpolate_points_endpoints` on the 2-point polyline
`[(0,1), (2,3)]` resampled to 3 points. -/
theorem interpolate_points_endpoints_witness :
    (interpolate_points [0, 2] [1, 3] 3).length = 3 ∧
    (interpolate_points [0, 2] [1, 3] 3).head? =
      some (([0, 2] : List ℚ).headI, ([1, 3] : List ℚ).headI) ∧
    (interpolate_points [0, 2] [1, 3] 3).getLast? =
      some (([0, 2] : List ℚ).getLastD 0, ([1, 3] : List ℚ).getLastD 0) :=
  interpolate_points_endpoints [0, 2] [1, 3] 3 (by decide) (by decide) (by decide)

/-! ### Track geometry (`plotDRSzones`, `build_track_from_example_lap`) -/

/-- A DRS zone produced by `plotDRSzones`: start/end sample indices with the
corresponding track coordinates (looked up via `iloc` in the source). -/
structure DRSZone where
  startIdx : ℕ
  endIdx : ℕ
  startX : ℚ
  startY : ℚ
  endX : ℚ
  endY : ℚ
deriving DecidableEq, Repr

/-- The DRS codes treated as active (`val in [10, 12, 14]`). -/
def isDRSActive (v : ℤ) : Bool := decide (v = 10 ∨ v = 12 ∨ v = 14)

/-- Zone record from start/end sample indices. -/
def mkZone (xs ys : List ℚ) (s e : ℕ) : DRSZone :=
  ⟨s, e, xs.getD s 0, ys.getD s 0, xs.getD e 0, ys.getD e 0⟩

/-- The scan loop of `plotDRSzones`: `i` is the index of the head of the
remaining list, `start?` the index at which the current zone opened. -/
def drsLoop (xs ys : List ℚ) : List ℤ → ℕ → Option ℕ → List DRSZone →
    List DRSZone × Option ℕ
  | [], _, start?, acc => (acc, start?)
  | v :: rest, i, start?, acc =>
    if isDRSActive v then
      drsLoop xs ys rest (i + 1) (some (start?.getD i)) acc
    else
      match start? with
      | some s => drsLoop xs ys rest (i + 1) none (acc ++ [mkZone xs ys s (i - 1)])
      | none => drsLoop xs ys rest (i + 1) none acc

/-- `plotDRSzones` (`src/src/ui_components.py`, lines 1724–1753): contiguous
runs of active DRS codes become zones; a zone still open at the end of the
lap is closed at the last sample index. -/
def plotDRSzones (xs ys : List ℚ) (drs : List ℤ) : List DRSZone :=
  let r := drsLoop xs ys drs 0 none []
  match r.2 with
  | some s => r.1 ++ [mkZone xs ys s (drs.length - 1)]
  | none => r.1

/-- One unfolding step of `drsLoop` on a cons cell. -/
theorem drsLoop_cons (xs ys : List ℚ) (v : ℤ) (rest : List ℤ) (i : ℕ)
    (start? : Option ℕ) (acc : List DRSZone) :
    drsLoop xs ys (v :: rest) i start? acc =
      if isDRSActive v then
        drsLoop xs ys rest (i + 1) (some (start?.getD i)) acc
      else
        match start? with
        | some s => drsLoop xs ys rest (i + 1) none (acc ++ [mkZone xs ys s (i - 1)])
        | none => drsLoop xs ys rest (i + 1) none acc := rfl

/-- If the last DRS state is active, the scan loop finishes with an open
zone. -/
theorem drsLoop_active_last (xs ys : List ℚ) :
    ∀ (drs : List ℤ) (i : ℕ) (start? : Option ℕ) (acc : List DRSZone)
      (hne : drs ≠ []), isDRSActive (drs.getLast hne) = true →
      ∃ j, (drsLoop xs ys drs i start? acc).2 = some j := by
  intro drs
  induction drs with
  | nil => intro i s a hne; exact absurd rfl hne
  | cons v rest ih =>
    intro i start? acc hne hact
    cases rest with
    | nil =>
      have hv : isDRSActive v = true := by simpa using hact
      simp [drsLoop, hv]
    | cons w rest' =>
      have hact' : isDRSActive ((w :: rest').getLast (by simp)) = true := by
        rwa [List.getLast_cons (by simp)] at hact
      by_cases hv : isDRSActive v = true
      · rw [drsLoop_cons, if_pos hv]
        exact ih _ _ _ (by simp) hact'
      · rw [drsLoop_cons, if_neg hv]
        cases start? with
        | some s => exact ih _ _ _ (by simp) hact'
        | none => exact ih _ _ _ (by simp) hact'

/-- **C6.** DRS-zone extraction on the state sequence
`[0,0,10,10,12,0,0,14,14,0]` yields exactly the two zones with index ranges
`[2,4]` and `[7,8]`; and whenever the DRS state is still active at the last
sample, the last emitted zone ends at the last sample index (an open zone at
the end of the lap is never dropped). -/
theorem drs_zones_scenario_and_open_zone :
    (∀ xs ys : List ℚ,
      (plotDRSzones xs ys [0, 0, 10, 10, 12, 0, 0, 14, 14, 0]).map
        (fun z => (z.startIdx, z.endIdx)) = [(2, 4), (7, 8)]) ∧
    (∀ (xs ys : List ℚ) (drs : List ℤ) (hne : drs ≠ []),
      isDRSActive (drs.getLast hne) = true →
      ∃ z, (plotDRSzones xs ys drs).getLast? = some z ∧
        z.endIdx = drs.length - 1) := by
  constructor
  · intro xs ys; rfl
  · intro xs ys drs hne hact
    obtain ⟨j, hj⟩ := drsLoop_active_last xs ys drs 0 none [] hne hact
    refine ⟨mkZone xs ys j (drs.length - 1), ?_, rfl⟩
    rw [plotDRSzones]
    simp only [hj, List.getLast?_concat]

/-- Witness for `drs_zones_scenario_and_open_zone` (open-zone part) at the
one-sample lap `[10]`. -/
theorem drs_open_zone_witness :
    ∃ z, (plotDRSzones [] [] [10]).getLast? = some z ∧
      z.endIdx = ([10] : List ℤ).length - 1 :=
  drs_zones_scenario_and_open_zone.2 [] [] [10] (by simp) (by decide)

/-- Errors that `build_track_from_example_lap` can signal.
`insufficientDataError` is the distinct named error postulated by the spec;
the code never raises it — with fewer than 2 samples, `np.gradient` raises a
plain `ValueError`. -/
inductive BuildError
  | valueError
  | insufficientDataError
deriving DecidableEq, Repr

/-- Interior/terminal part of `np.gradient`: `p`, `c` are the previous and
current elements. -/
def np_gradient_go : ℚ → ℚ → List ℚ → List ℚ
  | p, c, [] => [c - p]
  | p, c, n :: rest => (n - p) / 2 :: np_gradient_go c n rest

/-- `np.gradient` on a 1-d array: one-sided differences at the ends,
central differences in the interior; `ValueError` for fewer than 2
elements. -/
def np_gradient (l : List ℚ) : Except BuildError (List ℚ) :=
  match l with
  | [] => .error .valueError
  | [_] => .error .valueError
  | a :: b :: rest => .ok ((b - a) :: np_gradient_go a b rest)

/-- `min(xs) if xs else d` / `max(xs) if xs else d`. -/
def listMinD {α : Type} [Min α] (l : List α) (d : α) : α :=
  match l with
  | [] => d
  | a :: t => t.foldl min a

def listMaxD {α : Type} [Max α] (l : List α) (d : α) : α :=
  match l with
  | [] => d
  | a :: t => t.foldl max a

/-- Geometry produced by `build_track_from_example_lap`.  The boundary
curves involve a float square root, so they live in `ℝ`. -/
structure TrackData where
  plot_x_ref : List ℚ
  plot_y_ref : List ℚ
  x_inner : List ℝ
  y_inner : List ℝ
  x_outer : List ℝ
  y_outer : List ℝ
  x_min : ℝ
  x_max : ℝ
  y_min : ℝ
  y_max : ℝ
  drs_zones_xy : List DRSZone

/-- Normalised tangent direction: `norm = sqrt(dx² + dy²)`, zero norms
replaced by `1.0` before dividing (`norm[norm == 0] = 1.0`). -/
noncomputable def unitTangent (dx dy : ℚ) : ℝ × ℝ :=
  let n0 : ℝ := Real.sqrt ((dx : ℝ) ^ 2 + (dy : ℝ) ^ 2)
  let n : ℝ := if n0 = 0 then 1 else n0
  ((dx : ℝ) / n, (dy : ℝ) / n)

/-- `build_track_from_example_lap` (`src/src/ui_components.py`, lines
1692–1721): DRS zones, central-difference tangents, left-normal offsets of
`track_width / 2`, world bounds over centerline ∪ inner ∪ outer. -/
noncomputable def build_track_from_example_lap (xs ys : List ℚ) (drs : List ℤ)
    (track_width : ℚ := 200) : Except BuildError TrackData :=
  let drs_zones := plotDRSzones xs ys drs
  match np_gradient xs, np_gradient ys with
  | .error e, _ => .error e
  | .ok _, .error e => .error e
  | .ok dx, .ok dy =>
    let units := (dx.zip dy).map (fun p => unitTangent p.1 p.2)
    let nx := units.map (fun u => -u.2)
    let ny := units.map (fun u => u.1)
    let half : ℝ := (track_width : ℝ) / 2
    let x_outer := (xs.zip nx).map (fun p => (p.1 : ℝ) + p.2 * half)
    let y_outer := (ys.zip ny).map (fun p => (p.1 : ℝ) + p.2 * half)
    let x_inner := (xs.zip nx).map (fun p => (p.1 : ℝ) - p.2 * half)
    let y_inner := (ys.zip ny).map (fun p => (p.1 : ℝ) - p.2 * half)
    let xsr := xs.map (fun q => (q : ℝ))
    let ysr := ys.map (fun q => (q : ℝ))
    .ok { plot_x_ref := xs, plot_y_ref := ys,
          x_inner := x_inner, y_inner := y_inner,
          x_outer := x_outer, y_outer := y_outer,
          x_min := min (listMinD xsr 0) (min (listMinD x_inner 0) (listMinD x_outer 0)),
          x_max := max (listMaxD xsr 0) (max (listMaxD x_inner 0) (listMaxD x_outer 0)),
          y_min := min (listMinD ysr 0) (min (listMinD y_inner 0) (listMinD y_outer 0)),
          y_max := max (listMaxD ysr 0) (max (listMaxD y_inner 0) (listMaxD y_outer 0)),
          drs_zones_xy := drs_zones }

/-- **C4 (counterexample).** On a 1-point lap the build fails with numpy's
plain `ValueError`, which is not the distinct `InsufficientDataError` the
claim postulates — no such named error exists anywhere in the code. -/
theorem build_single_point_gives_value_error :
    build_track_from_example_lap [5] [5] [0] 200 = .error .valueError ∧
    BuildError.valueError ≠ BuildError.insufficientDataError :=
  ⟨rfl, by decide⟩

/-- **C4 (amended).** For every lap sample with fewer than 2 points the
build fails, but with numpy's generic `ValueError` raised by `np.gradient`,
not with a distinct named `InsufficientDataError` (which does not exist in
the code). -/
theorem build_fewer_than_two_points_value_error (xs ys : List ℚ) (drs : List ℤ)
    (w : ℚ) (h : xs.length < 2) :
    build_track_from_example_lap xs ys drs w = .error .valueError := by
  cases xs with
  | nil => rfl
  | cons a t =>
    cases t with
    | nil => rfl
    | cons b t' => exact absurd h (by simp [Nat.not_lt])

/-- Witness for `build_fewer_than_two_points_value_error` at the empty
lap. -/
theorem build_fewer_than_two_points_value_error_witness :
    build_track_from_example_lap [] [] [] 200 = .error .valueError :=
  build_fewer_than_two_points_value_error [] [] [] 200 (by decide)

/-! ### Race events (`extract_race_events`) -/

/-- One telemetry frame as seen by `extract_race_events`: the mapping of
driver codes to lap numbers (the only per-driver field the extractor
reads). -/
structure FrameData where
  drivers : List (String × ℤ)
deriving DecidableEq, Repr

/-- Event kinds of the progress bar. -/
inductive EventType
  | dnf | yellowFlag | safetyCar | redFlag | vsc
deriving DecidableEq, Repr

/-- An event row produced by `extract_race_events`. -/
structure RaceEvent where
  type : EventType
  frame : ℤ
  end_frame : Option ℤ
  label : String
  lap : Option ℤ
deriving DecidableEq, Repr

/-- A track-status interval: status code plus start/end times in seconds. -/
structure StatusInterval where
  status : String
  start_time : ℚ
  end_time : Option ℚ
deriving DecidableEq, Repr

/-- The dropout-detection pass of `extract_race_events` (lines 1620–1646):
frames are sampled every 25 indices; a driver present at the previous
sampled frame and absent at the current one yields a DNF event at the
current index, the lap read from the frame 25 indices earlier (clamped at
0).  Python iterates a set difference here; we keep the previous frame's
order, which fixes one of the set's possible iteration orders. -/
def dnfLoop (frames : List FrameData) : List ℕ → List String → List RaceEvent
  | [], _ => []
  | i :: rest, prev =>
    let fr := frames.getD i ⟨[]⟩
    let cur := fr.drivers.map Prod.fst
    let evs :=
      if prev ≠ [] then
        (prev.filter (fun c => ! cur.contains c)).map (fun c =>
          let prevFrame := frames.getD (i - 25) ⟨[]⟩
          { type := .dnf, frame := (i : ℤ), end_frame := none, label := c,
            lap := prevFrame.drivers.lookup c })
      else []
    evs ++ dnfLoop frames rest cur

/-- Status code → event kind (lines 1672–1680); unrecognised codes yield
no event. -/
def statusKind (code : String) : Option EventType :=
  if code = "2" then some .yellowFlag
  else if code = "4" then some .safetyCar
  else if code = "5" then some .redFlag
  else if code = "6" ∨ code = "7" then some .vsc
  else none

/-- Conversion of one status interval (lines 1650–1688): seconds to frames
at 25 FPS (Python `int()` truncation); a missing (`None`) — or zero, since
Python tests `if end_time` — end time defaults to `start_frame + 250`
(10 s); intervals whose end frame is ≤ 0 are dropped; end frames are
clamped to the frame count. -/
def statusEvent (n_frames : ℕ) (st : StatusInterval) : Option RaceEvent :=
  let fps : ℚ := 25
  let start_frame := pyTruncInt (st.start_time * fps)
  let end_frame :=
    match st.end_time with
    | none => start_frame + 250
    | some v => if v = 0 then start_frame + 250 else pyTruncInt (v * fps)
  if end_frame ≤ 0 then none
  else
    let end_frame2 := if 0 < n_frames then min end_frame (n_frames : ℤ) else end_frame
    (statusKind st.status).map (fun ty =>
      { type := ty, frame := start_frame, end_frame := some end_frame2,
        label := "", lap := none })

/-- `extract_race_events` (`src/src/ui_components.py`, lines 1596–1689):
the DNF pass over sampled frames, followed by the status-interval pass, in
that order; the events list is built by appending, never sorted.  The
`total_laps` argument is unused by the source as well. -/
def extract_race_events (frames : List FrameData)
    (track_statuses : List StatusInterval) (_total_laps : ℤ) : List RaceEvent :=
  if frames = [] then []
  else
    dnfLoop frames ((List.range frames.length).filter (fun i => i % 25 == 0)) []
      ++ track_statuses.filterMap (statusEvent frames.length)

/-- Every event produced by the DNF pass carries the index of the sampled
frame at which it was detected. -/
theorem dnfLoop_frame_mem (frames : List FrameData) :
    ∀ (idxs : List ℕ) (prev : List String) (e : RaceEvent),
      e ∈ dnfLoop frames idxs prev → ∃ i ∈ idxs, e.frame = (i : ℤ) := by
  intro idxs
  induction idxs with
  | nil => intro prev e he; simp [dnfLoop] at he
  | cons i rest ih =>
    intro prev e he
    rw [dnfLoop] at he
    rcases List.mem_append.mp he with h | h
    · refine ⟨i, by simp, ?_⟩
      by_cases hp : prev ≠ []
      · rw [if_pos hp] at h
        obtain ⟨c, _, rfl⟩ := List.mem_map.mp h
        rfl
      · rw [if_neg hp] at h
        simp at h
    · obtain ⟨i', hi', hfr⟩ := ih _ e h
      exact ⟨i', by simp [hi'], hfr⟩

/-- A list all of whose elements are equal is sorted. -/
theorem sorted_of_all_eq (c : ℤ) :
    ∀ l : List ℤ, (∀ a ∈ l, a = c) → l.Sorted (· ≤ ·) := by
  intro l
  induction l with
  | nil => intro _; simp
  | cons a t ih =>
    intro h
    refine List.Pairwise.cons ?_ (ih fun b hb => h b (by simp [hb]))
    intro b hb
    rw [h a (by simp), h b (by simp [hb])]

/-- The DNF pass emits events in ascending frame order whenever the sampled
indices are ascending. -/
theorem dnfLoop_sorted (frames : List FrameData) :
    ∀ (idxs : List ℕ) (prev : List String), idxs.Sorted (· ≤ ·) →
      ((dnfLoop frames idxs prev).map RaceEvent.frame).Sorted (· ≤ ·) := by
  intro idxs
  induction idxs with
  | nil => intro prev _; simp [dnfLoop]
  | cons i rest ih =>
    intro prev hsort
    have hhead : ∀ j ∈ rest, i ≤ j := (List.sorted_cons.mp hsort).1
    have hrest : rest.Sorted (· ≤ ·) := (List.sorted_cons.mp hsort).2
    rw [dnfLoop, List.map_append]
    refine List.pairwise_append.mpr ⟨?_, ih _ hrest, ?_⟩
    · apply sorted_of_all_eq (i : ℤ)
      intro a ha
      obtain ⟨e, he, rfl⟩ := List.mem_map.mp ha
      by_cases hp : prev ≠ []
      · rw [if_pos hp] at he
        obtain ⟨c, _, rfl⟩ := List.mem_map.mp he
        rfl
      · rw [if_neg hp] at he
        simp at he
    · intro a ha b hb
      obtain ⟨e, he, rfl⟩ := List.mem_map.mp ha
      obtain ⟨f, hf, rfl⟩ := List.mem_map.mp hb
      have hea : e.frame = (i : ℤ) := by
        by_cases hp : prev ≠ []
        · rw [if_pos hp] at he
          obtain ⟨c, _, rfl⟩ := List.mem_map.mp he
          rfl
        · rw [if_neg hp] at he
          simp at he
      obtain ⟨j, hj, hfb⟩ := dnfLoop_frame_mem frames _ _ f hf
      rw [hea, hfb]
      exact_mod_cast hhead j hj

/-- The frame-index sample grid `range(0, n, 25)` is ascending. -/
theorem sample_grid_sorted (n : ℕ) :
    ((List.range n).filter (fun i => i % 25 == 0)).Sorted (· ≤ ·) := by
  have h1 : List.Pairwise (· < ·) (List.range n) := List.pairwise_lt_range n
  have h2 : List.Pairwise (· < ·) ((List.range n).filter (fun i => i % 25 == 0)) :=
    h1.sublist (List.filter_sublist _)
  exact h2.imp le_of_lt

/-- **C9 (counterexample).** The output of `extract_race_events` is not
sorted by start frame: a dropout at sampled frame 25 precedes a yellow-flag
interval that starts at frame 0, because status events are appended after
the DNF pass with no final sort. -/
theorem extract_events_not_sorted :
    ¬ ((extract_race_events (⟨[("A", 1)]⟩ :: List.replicate 25 ⟨[]⟩)
        [⟨"2", 0, some 1⟩] 57).map RaceEvent.frame).Sorted (· ≤ ·) := by
  with_unfolding_all decide

/-- **C9 (amended).** The returned list is the DNF events — which are
sorted by start frame ascending — followed by the status-interval events in
input-list order; the combined list is sorted whenever the status list is
empty, but is not globally sorted in general. -/
theorem extract_events_dnf_sorted (frames : List FrameData)
    (sts : List StatusInterval) (laps : ℤ) :
    extract_race_events frames sts laps =
      (if frames = [] then [] else
        dnfLoop frames ((List.range frames.length).filter (fun i => i % 25 == 0)) []
          ++ sts.filterMap (statusEvent frames.length)) ∧
    ((extract_race_events frames [] laps).map RaceEvent.frame).Sorted (· ≤ ·) := by
  refine ⟨rfl, ?_⟩
  rw [extract_race_events]
  by_cases hf : frames = []
  · rw [if_pos hf]; simp
  · rw [if_neg hf]
    simp only [List.filterMap_nil, List.append_nil]
    exact dnfLoop_sorted frames _ [] (sample_grid_sorted frames.length)

/-- **C10 (counterexample).** A status interval with no end time is not
always kept: with `start_time = -10` s the default gives
`end_frame = int(-10·25) + 250 = 0 ≤ 0`, so the interval is discarded and
no event is produced. -/
theorem status_no_end_time_discarded :
    extract_race_events (List.replicate 26 ⟨[]⟩) [⟨"2", -10, none⟩] 57 = [] := by
  with_unfolding_all decide

/-- **C10 (amended).** A status interval with a missing end time and a
recognised status code whose start time is ≥ 0 is kept with the default
duration of 250 frames (10 s at the assumed 25 FPS):
`end_frame = start_frame + 250` clamped to the frame count. -/
theorem status_no_end_time_default_duration (frames : List FrameData)
    (sts : List StatusInterval) (laps : ℤ) (st : StatusInterval) (ty : EventType)
    (hne : frames ≠ []) (hmem : st ∈ sts) (hend : st.end_time = none)
    (hstart : 0 ≤ st.start_time) (hkind : statusKind st.status = some ty) :
    ∃ e ∈ extract_race_events frames sts laps,
      e.type = ty ∧ e.frame = pyTruncInt (st.start_time * 25) ∧
      e.end_frame = some (min (pyTruncInt (st.start_time * 25) + 250)
        (frames.length : ℤ)) := by
  have hsf : 0 ≤ pyTruncInt (st.start_time * 25) := by
    rw [pyTruncInt, if_pos (by positivity)]
    exact Int.floor_nonneg.mpr (by positivity)
  have hnpos : 0 < frames.length := List.length_pos.mpr hne
  have hse : statusEvent frames.length st =
      some { type := ty, frame := pyTruncInt (st.start_time * 25),
             end_frame := some (min (pyTruncInt (st.start_time * 25) + 250)
               (frames.length : ℤ)),
             label := "", lap := none } := by
    simp only [statusEvent, hend]
    rw [if_neg (show ¬ (pyTruncInt (st.start_time * 25) + 250 ≤ 0) by omega)]
    rw [if_pos hnpos, hkind]
    rfl
  refine ⟨{ type := ty, frame := pyTruncInt (st.start_time * 25),
            end_frame := some (min (pyTruncInt (st.start_time * 25) + 250)
              (frames.length : ℤ)),
            label := "", lap := none }, ?_, rfl, rfl, rfl⟩
  rw [extract_race_events, if_neg hne]
  exact List.mem_append_right _ (List.mem_filterMap.mpr ⟨st, hmem, hse⟩)

/-- Witness for `status_no_end_time_default_duration`: one frame, one
yellow-flag interval starting at 0 s with no end time. -/
theorem status_no_end_time_default_duration_witness :
    ∃ e ∈ extract_race_events [⟨[]⟩] [⟨"2", 0, none⟩] 57,
      e.type = .yellowFlag ∧ e.frame = pyTruncInt ((0 : ℚ) * 25) ∧
      e.end_frame = some (min (pyTruncInt ((0 : ℚ) * 25) + 250)
        (([(⟨[]⟩ : FrameData)] : List FrameData).length : ℤ)) :=
  status_no_end_time_default_duration [⟨[]⟩] [⟨"2", 0, none⟩] 57 ⟨"2", 0, none⟩
    .yellowFlag (by simp) (by simp) rfl le_rfl rfl

/-! ### Viewport transform (`update_scaling`, `world_to_screen`) -/

/-- The window state read by `QualifyingReplay.update_scaling` and
`QualifyingReplay.world_to_screen`: the geometry bounds, the interpolated
boundary curves in world coordinates, the rotation's cosine and sine (plus
whether `_rot_rad` is nonzero, which `world_to_screen` tests), and the
reserved left/right UI margins. -/
structure ViewportState where
  x_min : ℚ
  x_max : ℚ
  y_min : ℚ
  y_max : ℚ
  world_inner_points : List (ℚ × ℚ)
  world_outer_points : List (ℚ × ℚ)
  cos_rot : ℚ
  sin_rot : ℚ
  rot_nonzero : Bool
  left_ui_margin : ℚ
  right_ui_margin : ℚ
deriving DecidableEq, Repr

/-- Rotation about the centre of the original bounds: the inner
`_rotate_about_center` of `update_scaling`, with the same formula as the
rotation step of `world_to_screen`. -/
def rotate_about_center (s : ViewportState) (p : ℚ × ℚ) : ℚ × ℚ :=
  let world_cx := (s.x_min + s.x_max) / 2
  let world_cy := (s.y_min + s.y_max) / 2
  let tx := p.1 - world_cx
  let ty := p.2 - world_cy
  (tx * s.cos_rot - ty * s.sin_rot + world_cx,
   tx * s.sin_rot + ty * s.cos_rot + world_cy)

/-- `QualifyingReplay.update_scaling` (lines 132–189): rotated extents from
the boundary world points, floors of 1 on world sizes and the inner width,
5% padding, uniform scale-to-fit, translation centring the original world
centre; returns `(world_scale, tx, ty)`. -/
def update_scaling (s : ViewportState) (screen_w screen_h : ℚ) : ℚ × ℚ × ℚ :=
  let padding : ℚ := 1/20
  let world_cx := (s.x_min + s.x_max) / 2
  let world_cy := (s.y_min + s.y_max) / 2
  let rotated := (s.world_inner_points ++ s.world_outer_points).map (rotate_about_center s)
  let xs := rotated.map Prod.fst
  let ys := rotated.map Prod.snd
  let world_x_min := listMinD xs s.x_min
  let world_x_max := listMaxD xs s.x_max
  let world_y_min := listMinD ys s.y_min
  let world_y_max := listMaxD ys s.y_max
  let world_w := max 1 (world_x_max - world_x_min)
  let world_h := max 1 (world_y_max - world_y_min)
  let inner_w := max 1 (screen_w - s.left_ui_margin - s.right_ui_margin)
  let usable_w := inner_w * (1 - 2 * padding)
  let usable_h := screen_h * (1 - 2 * padding)
  let scale := min (usable_w / world_w) (usable_h / world_h)
  let screen_cx := s.left_ui_margin + inner_w / 2
  let screen_cy := screen_h / 2
  (scale, screen_cx - scale * world_cx, screen_cy - scale * world_cy)

/-- `QualifyingReplay.world_to_screen` (lines 746–760), applied with the
transform `(scale, tx, ty)` produced by `update_scaling`. -/
def world_to_screen (s : ViewportState) (scale tx ty : ℚ) (p : ℚ × ℚ) : ℚ × ℚ :=
  let q := if s.rot_nonzero then rotate_about_center s p else p
  (scale * q.1 + tx, scale * q.2 + ty)

/-- The usable viewport rectangle from the claim's words: the viewport
minus the left/right UI margins, shrunk on each side by the 5% padding
fraction (full height, shrunk by the padding, vertically). -/
def inUsableRect (left_margin right_margin screen_w screen_h : ℚ) (p : ℚ × ℚ) : Prop :=
  let padding : ℚ := 1/20
  let iw := screen_w - left_margin - right_margin
  left_margin + padding * iw ≤ p.1 ∧ p.1 ≤ screen_w - right_margin - padding * iw ∧
  padding * screen_h ≤ p.2 ∧ p.2 ≤ screen_h - padding * screen_h

instance (a b c d : ℚ) (p : ℚ × ℚ) : Decidable (inUsableRect a b c d p) := by
  unfold inUsableRect
  infer_instance

/-- The window state for the reference lap `x = [0, 10, 4]`, `y = [0, 0, 0]`
with track width 200 and rotation 0°: the tangents are axis-aligned, so the
boundary curves are exactly `y = ∓100` over the same `x` polyline, giving
bounds `[0,10] × [-100,100]`, and the world-point caches hold their
2000-point resamplings, exactly as the window's setup computes them. -/
def cexGeometry : ViewportState :=
  { x_min := 0, x_max := 10, y_min := -100, y_max := 100,
    world_inner_points := interpolate_points [0, 10, 4] [-100, -100, 100],
    world_outer_points := interpolate_points [0, 10, 4] [100, 100, -100],
    cos_rot := 1, sin_rot := 0, rot_nonzero := false,
    left_ui_margin := 340, right_ui_margin := 0 }

/-- The transform `update_scaling` computes for that geometry in a
360 × 10000 viewport. -/
def cexTransform : ℚ × ℚ × ℚ := update_scaling cexGeometry 360 10000

theorem le_foldl_max (l : List ℚ) : ∀ init : ℚ, init ≤ l.foldl max init := by
  induction l with
  | nil => intro init; simp
  | cons a t ih =>
    intro init
    rw [List.foldl_cons]
    exact le_trans (le_max_left init a) (ih (max init a))

theorem mem_le_foldl_max (l : List ℚ) :
    ∀ (init a : ℚ), a ∈ l → a ≤ l.foldl max init := by
  induction l with
  | nil => intro init a ha; simp at ha
  | cons b t ih =>
    intro init a ha
    rw [List.foldl_cons]
    rcases List.mem_cons.mp ha with rfl | ha'
    · exact le_trans (le_max_right init a) (le_foldl_max t (max init a))
    · exact ih (max init b) a ha'

theorem foldl_max_le (l : List ℚ) :
    ∀ (init b : ℚ), init ≤ b → (∀ a ∈ l, a ≤ b) → l.foldl max init ≤ b := by
  induction l with
  | nil => intro init b h _; simpa using h
  | cons c t ih =>
    intro init b h hall
    rw [List.foldl_cons]
    exact ih (max init c) b (max_le h (hall c (by simp)))
      (fun a ha => hall a (by simp [ha]))

theorem foldl_min_le (l : List ℚ) : ∀ init : ℚ, l.foldl min init ≤ init := by
  induction l with
  | nil => intro init; simp
  | cons a t ih =>
    intro init
    rw [List.foldl_cons]
    exact le_trans (ih (min init a)) (min_le_left init a)

theorem foldl_min_le_mem (l : List ℚ) :
    ∀ (init a : ℚ), a ∈ l → l.foldl min init ≤ a := by
  induction l with
  | nil => intro init a ha; simp at ha
  | cons b t ih =>
    intro init a ha
    rw [List.foldl_cons]
    rcases List.mem_cons.mp ha with rfl | ha'
    · exact le_trans (foldl_min_le t (min init a)) (min_le_right init a)
    · exact ih (min init b) a ha'

theorem le_foldl_min (l : List ℚ) :
    ∀ (init b : ℚ), b ≤ init → (∀ a ∈ l, b ≤ a) → b ≤ l.foldl min init := by
  induction l with
  | nil => intro init b h _; simpa using h
  | cons c t ih =>
    intro init b h hall
    rw [List.foldl_cons]
    exact ih (min init c) b (le_min h (hall c (by simp)))
      (fun a ha => hall a (by simp [ha]))

/-- `listMaxD` computes the maximum when a member dominates the list. -/
theorem listMaxD_eq_of (l : List ℚ) (d m : ℚ) (hmem : m ∈ l)
    (hub : ∀ a ∈ l, a ≤ m) : listMaxD l d = m := by
  cases l with
  | nil => simp at hmem
  | cons a t =>
    rw [listMaxD]
    apply le_antisymm
    · exact foldl_max_le t a m (hub a (by simp)) (fun x hx => hub x (by simp [hx]))
    · rcases List.mem_cons.mp hmem with rfl | hm
      · exact le_foldl_max t m
      · exact mem_le_foldl_max t a m hm

/-- `listMinD` computes the minimum when a member bounds the list below. -/
theorem listMinD_eq_of (l : List ℚ) (d m : ℚ) (hmem : m ∈ l)
    (hlb : ∀ a ∈ l, m ≤ a) : listMinD l d = m := by
  cases l with
  | nil => simp at hmem
  | cons a t =>
    rw [listMinD]
    apply le_antisymm
    · rcases List.mem_cons.mp hmem with rfl | hm
      · exact foldl_min_le t m
      · exact foldl_min_le_mem t a m hm
    · exact le_foldl_min t a m (hlb a (by simp)) (fun x hx => hlb x (by simp [hx]))

/-- Closed form of `np_interp` on the three knots `0, 1/2, 1`. -/
theorem np_interp_three_eval (a b c t : ℚ) :
    np_interp t [(0, a), (1/2, b), (1, c)] =
      if t ≤ 0 then a
      else if 1 ≤ t then c
      else if t ≤ 1/2 then a + (b - a) * (t - 0) / (1/2 - 0)
      else b + (c - b) * (t - 1/2) / (1 - 1/2) := by
  by_cases h0 : t ≤ 0
  · simp [np_interp, h0]
  · by_cases h1 : (1 : ℚ) ≤ t
    · simp [np_interp, h0, h1]
    · by_cases hh : t ≤ 1/2
      · simp [np_interp, interpGo, h0, h1, hh]
        have hh2 : t ≤ (2⁻¹ : ℚ) := by rw [← one_div]; exact hh
        simp [hh2]
      · have ht1 : t ≤ 1 := le_of_lt (lt_of_not_le h1)
        simp [np_interp, interpGo, h0, h1, hh, ht1]

/-- Knots of `np.interp` for the counterexample lap (`x` values). -/
def cexKnotsX : List (ℚ × ℚ) := [(0, 0), (1/2, 10), (1, 4)]

/-- Knots for the inner boundary's `y` values. -/
def cexKnotsYI : List (ℚ × ℚ) := [(0, -100), (1/2, -100), (1, 100)]

/-- Knots for the outer boundary's `y` values. -/
def cexKnotsYO : List (ℚ × ℚ) := [(0, 100), (1/2, 100), (1, -100)]

/-- All resampled `x` values stay at or below `19984/1999 < 10`: the
parameter grid `k/1999` never hits `1/2`, where `x = 10` lives. -/
theorem cex_x_le (k : ℕ) (hk : k < 2000) :
    np_interp ((k : ℚ)/1999) cexKnotsX ≤ 19984/1999 := by
  rw [cexKnotsX, np_interp_three_eval]
  split_ifs with ha hb hc
  · norm_num
  · norm_num
  · rw [div_le_div_iff₀ (by norm_num) (by norm_num)] at hc
    have hk999 : (k : ℚ) ≤ 999 := by
      have hn : 2 * k ≤ 1999 := by
        by_contra hcon
        push_neg at hcon
        have : (1999 : ℚ) < 2 * (k : ℚ) := by exact_mod_cast hcon
        linarith
      have hnn : k ≤ 999 := by omega
      exact_mod_cast hnn
    have hval : (0 : ℚ) + (10 - 0) * ((k : ℚ)/1999 - 0) / (1/2 - 0) =
        20 * (k : ℚ) / 1999 := by ring
    rw [hval, div_le_div_iff₀ (by norm_num) (by norm_num)]
    linarith
  · have h := lt_of_not_le hc
    rw [div_lt_div_iff₀ (by norm_num) (by norm_num)] at h
    have hk1000 : (1000 : ℚ) ≤ (k : ℚ) := by
      have hn : 1999 < 2 * k := by
        by_contra hcon
        push_neg at hcon
        have : 2 * (k : ℚ) ≤ 1999 := by exact_mod_cast hcon
        linarith
      have hnn : 1000 ≤ k := by omega
      exact_mod_cast hnn
    have hval : (10 : ℚ) + (4 - 10) * ((k : ℚ)/1999 - 1/2) / (1 - 1/2) =
        16 - 12 * ((k : ℚ)/1999) := by ring
    rw [hval]
    have ht : (1000 : ℚ)/1999 ≤ (k : ℚ)/1999 := by
      rw [div_le_div_iff₀ (by norm_num) (by norm_num)]
      linarith
    linarith

/-- All resampled `x` values are nonnegative. -/
theorem cex_x_ge (k : ℕ) (hk : k < 2000) :
    0 ≤ np_interp ((k : ℚ)/1999) cexKnotsX := by
  have h1t : (k : ℚ)/1999 ≤ 1 := by
    rw [div_le_one (by norm_num)]
    exact_mod_cast (by omega : k ≤ 1999)
  rw [cexKnotsX, np_interp_three_eval]
  split_ifs with ha hb hc
  · norm_num
  · norm_num
  · have h0t : (0 : ℚ) ≤ (k : ℚ)/1999 := by positivity
    have hval : (0 : ℚ) + (10 - 0) * ((k : ℚ)/1999 - 0) / (1/2 - 0) =
        20 * ((k : ℚ)/1999) := by ring
    rw [hval]
    linarith
  · have hval : (10 : ℚ) + (4 - 10) * ((k : ℚ)/1999 - 1/2) / (1 - 1/2) =
        16 - 12 * ((k : ℚ)/1999) := by ring
    rw [hval]
    linarith

/-- All resampled inner-boundary `y` values stay within `[-100, 100]`. -/
theorem cex_yi_bounds (k : ℕ) (hk : k < 2000) :
    -100 ≤ np_interp ((k : ℚ)/1999) cexKnotsYI ∧
    np_interp ((k : ℚ)/1999) cexKnotsYI ≤ 100 := by
  have h1t : (k : ℚ)/1999 ≤ 1 := by
    rw [div_le_one (by norm_num)]
    exact_mod_cast (by omega : k ≤ 1999)
  rw [cexKnotsYI, np_interp_three_eval]
  split_ifs with ha hb hc
  · norm_num
  · norm_num
  · have hval : (-100 : ℚ) + (-100 - -100) * ((k : ℚ)/1999 - 0) / (1/2 - 0) =
        -100 := by ring
    rw [hval]
    norm_num
  · have hmid := lt_of_not_le hc
    have hval : (-100 : ℚ) + (100 - -100) * ((k : ℚ)/1999 - 1/2) / (1 - 1/2) =
        400 * ((k : ℚ)/1999) - 300 := by ring
    rw [hval]
    constructor <;> linarith

/-- All resampled outer-boundary `y` values stay within `[-100, 100]`. -/
theorem cex_yo_bounds (k : ℕ) (hk : k < 2000) :
    -100 ≤ np_interp ((k : ℚ)/1999) cexKnotsYO ∧
    np_interp ((k : ℚ)/1999) cexKnotsYO ≤ 100 := by
  have h1t : (k : ℚ)/1999 ≤ 1 := by
    rw [div_le_one (by norm_num)]
    exact_mod_cast (by omega : k ≤ 1999)
  rw [cexKnotsYO, np_interp_three_eval]
  split_ifs with ha hb hc
  · norm_num
  · norm_num
  · have hval : (100 : ℚ) + (100 - 100) * ((k : ℚ)/1999 - 0) / (1/2 - 0) =
        100 := by ring
    rw [hval]
    norm_num
  · have hmid := lt_of_not_le hc
    have hval : (100 : ℚ) + (-100 - 100) * ((k : ℚ)/1999 - 1/2) / (1 - 1/2) =
        300 - 400 * ((k : ℚ)/1999) := by ring
    rw [hval]
    constructor <;> linarith

/-- The resampled `x` maximum `19984/1999` is attained (at grid index
1000). -/
theorem cex_xmax_mem :
    (19984/1999 : ℚ) ∈ (linspace 2000).map (fun t => np_interp t cexKnotsX) := by
  refine List.mem_map.mpr ⟨(1000 : ℚ)/1999, ?_, ?_⟩
  · rw [linspace]
    refine List.mem_map.mpr ⟨1000, List.mem_range.mpr (by norm_num), ?_⟩
    norm_num
  · rw [cexKnotsX, np_interp_three_eval]
    norm_num

/-- The resampled `x` minimum `0` is attained (at grid index 0). -/
theorem cex_xmin_mem :
    (0 : ℚ) ∈ (linspace 2000).map (fun t => np_interp t cexKnotsX) := by
  refine List.mem_map.mpr ⟨0, ?_, ?_⟩
  · rw [linspace]
    refine List.mem_map.mpr ⟨0, List.mem_range.mpr (by norm_num), ?_⟩
    norm_num
  · rw [cexKnotsX, np_interp_three_eval]
    norm_num

/-- The inner boundary attains `y = -100` (at grid index 0). -/
theorem cex_ymin_mem :
    (-100 : ℚ) ∈ (linspace 2000).map (fun t => np_interp t cexKnotsYI) := by
  refine List.mem_map.mpr ⟨0, ?_, ?_⟩
  · rw [linspace]
    refine List.mem_map.mpr ⟨0, List.mem_range.mpr (by norm_num), ?_⟩
    norm_num
  · rw [cexKnotsYI, np_interp_three_eval]
    norm_num

/-- The inner boundary attains `y = 100` (at grid index 1999). -/
theorem cex_ymax_mem :
    (100 : ℚ) ∈ (linspace 2000).map (fun t => np_interp t cexKnotsYI) := by
  refine List.mem_map.mpr ⟨(1999 : ℚ)/1999, ?_, ?_⟩
  · rw [linspace]
    refine List.mem_map.mpr ⟨1999, List.mem_range.mpr (by norm_num), ?_⟩
    norm_num
  · rw [cexKnotsYI, np_interp_three_eval]
    norm_num

/-- Every element of a 2000-point resampling grid list has the form
`np_interp (k/1999) knots` with `k < 2000`. -/
theorem grid_mem_form (knots : List (ℚ × ℚ)) (a : ℚ)
    (ha : a ∈ (linspace 2000).map (fun t => np_interp t knots)) :
    ∃ k : ℕ, k < 2000 ∧ a = np_interp ((k : ℚ)/1999) knots := by
  obtain ⟨t, ht, rfl⟩ := List.mem_map.mp ha
  rw [linspace] at ht
  obtain ⟨k, hk, rfl⟩ := List.mem_map.mp ht
  refine ⟨k, List.mem_range.mp hk, ?_⟩
  norm_num

/-- Rotation by 0° (cosine 1, sine 0) is the identity. -/
theorem cex_rotate_id (p : ℚ × ℚ) : rotate_about_center cexGeometry p = p := by
  obtain ⟨p1, p2⟩ := p
  simp only [rotate_about_center, cexGeometry, Prod.mk.injEq]
  constructor <;> ring

theorem cex_rotated :
    (cexGeometry.world_inner_points ++ cexGeometry.world_outer_points).map
      (rotate_about_center cexGeometry) =
    cexGeometry.world_inner_points ++ cexGeometry.world_outer_points := by
  rw [List.map_congr_left (fun p _ => cex_rotate_id p)]
  exact List.map_id' _

theorem map_fst_interpolate (X Y : List ℚ) (n : ℕ) :
    (interpolate_points X Y n).map Prod.fst =
      (linspace n).map (fun t => np_interp t ((linspace X.length).zip X)) := by
  rw [interpolate_points, List.map_map]
  rfl

theorem map_snd_interpolate (X Y : List ℚ) (n : ℕ) :
    (interpolate_points X Y n).map Prod.snd =
      (linspace n).map (fun t => np_interp t ((linspace X.length).zip Y)) := by
  rw [interpolate_points, List.map_map]
  rfl

theorem cex_inner_eq :
    cexGeometry.world_inner_points = interpolate_points [0, 10, 4] [-100, -100, 100] 2000 := by
  simp only [cexGeometry]

theorem cex_outer_eq :
    cexGeometry.world_outer_points = interpolate_points [0, 10, 4] [100, 100, -100] 2000 := by
  simp only [cexGeometry]

theorem cex_points_fst :
    (cexGeometry.world_inner_points ++ cexGeometry.world_outer_points).map Prod.fst =
      (linspace 2000).map (fun t => np_interp t cexKnotsX) ++
      (linspace 2000).map (fun t => np_interp t cexKnotsX) := by
  rw [cex_inner_eq, cex_outer_eq]
  rw [List.map_append, map_fst_interpolate, map_fst_interpolate]
  rw [(by with_unfolding_all decide :
    (linspace ([0, 10, 4] : List ℚ).length).zip ([0, 10, 4] : List ℚ) = cexKnotsX)]

theorem cex_points_snd :
    (cexGeometry.world_inner_points ++ cexGeometry.world_outer_points).map Prod.snd =
      (linspace 2000).map (fun t => np_interp t cexKnotsYI) ++
      (linspace 2000).map (fun t => np_interp t cexKnotsYO) := by
  rw [cex_inner_eq, cex_outer_eq]
  rw [List.map_append, map_snd_interpolate, map_snd_interpolate]
  rw [(by with_unfolding_all decide :
    (linspace ([0, 10, 4] : List ℚ).length).zip ([-100, -100, 100] : List ℚ) = cexKnotsYI)]
  rw [(by with_unfolding_all decide :
    (linspace ([0, 10, 4] : List ℚ).length).zip ([100, 100, -100] : List ℚ) = cexKnotsYO)]

theorem cex_extent_xmax :
    listMaxD ((linspace 2000).map (fun t => np_interp t cexKnotsX) ++
        (linspace 2000).map (fun t => np_interp t cexKnotsX)) cexGeometry.x_max =
      19984/1999 := by
  apply listMaxD_eq_of
  · exact List.mem_append_left _ cex_xmax_mem
  · intro a ha
    rcases List.mem_append.mp ha with h | h <;>
    · obtain ⟨k, hk, rfl⟩ := grid_mem_form _ a h
      exact cex_x_le k hk

theorem cex_extent_xmin :
    listMinD ((linspace 2000).map (fun t => np_interp t cexKnotsX) ++
        (linspace 2000).map (fun t => np_interp t cexKnotsX)) cexGeometry.x_min = 0 := by
  apply listMinD_eq_of
  · exact List.mem_append_left _ cex_xmin_mem
  · intro a ha
    rcases List.mem_append.mp ha with h | h <;>
    · obtain ⟨k, hk, rfl⟩ := grid_mem_form _ a h
      exact cex_x_ge k hk

theorem cex_extent_ymax :
    listMaxD ((linspace 2000).map (fun t => np_interp t cexKnotsYI) ++
        (linspace 2000).map (fun t => np_interp t cexKnotsYO)) cexGeometry.y_max =
      100 := by
  apply listMaxD_eq_of
  · exact List.mem_append_left _ cex_ymax_mem
  · intro a ha
    rcases List.mem_append.mp ha with h | h
    · obtain ⟨k, hk, rfl⟩ := grid_mem_form _ a h
      exact (cex_yi_bounds k hk).2
    · obtain ⟨k, hk, rfl⟩ := grid_mem_form _ a h
      exact (cex_yo_bounds k hk).2

theorem cex_extent_ymin :
    listMinD ((linspace 2000).map (fun t => np_interp t cexKnotsYI) ++
        (linspace 2000).map (fun t => np_interp t cexKnotsYO)) cexGeometry.y_min =
      -100 := by
  apply listMinD_eq_of
  · exact List.mem_append_left _ cex_ymin_mem
  · intro a ha
    rcases List.mem_append.mp ha with h | h
    · obtain ⟨k, hk, rfl⟩ := grid_mem_form _ a h
      exact (cex_yi_bounds k hk).1
    · obtain ⟨k, hk, rfl⟩ := grid_mem_form _ a h
      exact (cex_yo_bounds k hk).1

/-- `update_scaling` on the counterexample geometry in a 360 × 10000
viewport: the scale is fitted to the resampled extent `19984/1999` in `x`
and the translation centres the true world centre `(5, 0)`. -/
theorem cex_transform_eval :
    update_scaling cexGeometry 360 10000 = (17991/9992, 3407245/9992, 5000) := by
  simp only [update_scaling]
  rw [cex_rotated, cex_points_fst, cex_points_snd,
    cex_extent_xmin, cex_extent_xmax, cex_extent_ymin, cex_extent_ymax]
  simp only [cexGeometry]
  norm_num [min_def, max_def]

/-- **C5 (counterexample).** At rotation 0° in a 360 × 10000 viewport, the
bounding-box corner `(x_max, y_min) = (10, -100)` projects to
`screen_x = 3587155/9992 ≈ 359.0027 > 359`, outside the usable rectangle:
the scale is fitted to the extents of the 2000-point resampled boundary
curves, which miss the interior extreme `x = 10` (the resampling grid never
hits parameter 1/2 exactly), while the translation centres the true bounds
centre — so the true corner overflows the padded region. -/
theorem viewport_corner_outside_usable_rect :
    ¬ inUsableRect 340 0 360 10000
        (world_to_screen cexGeometry cexTransform.1 cexTransform.2.1 cexTransform.2.2
          (cexGeometry.x_max, cexGeometry.y_min)) := by
  have h : cexTransform = (17991/9992, 3407245/9992, 5000) := cex_transform_eval
  rw [h]
  simp only [world_to_screen, inUsableRect, cexGeometry]
  norm_num

/-- Rotation about the centre with cosine 1 and sine 0 is the identity. -/
theorem rotate_about_center_id (s : ViewportState) (hcos : s.cos_rot = 1)
    (hsin : s.sin_rot = 0) (p : ℚ × ℚ) : rotate_about_center s p = p := by
  obtain ⟨p1, p2⟩ := p
  simp only [rotate_about_center, hcos, hsin, Prod.mk.injEq]
  constructor <;> ring

/-- **C5 (amended).** At rotation 0° (cosine 1, sine 0, `_rot_rad = 0`),
whenever the extents of the cached boundary world points coincide with the
geometry bounds, the bounds are at least 1 world unit wide and tall, the
viewport leaves at least 1 unit of width between the UI margins and has
positive height, recomputing the transform and projecting all four corners
of the world bounding box lands inside the usable viewport rectangle.
(The unrestricted claim is false: the resampled extents can fall short of
the true bounds, rotation moves the fitted extents off-centre, and a
viewport narrower than the margins has no usable rectangle at all.) -/
theorem viewport_corners_in_usable_rect (s : ViewportState) (screen_w screen_h : ℚ)
    (hcos : s.cos_rot = 1) (hsin : s.sin_rot = 0) (hrot : s.rot_nonzero = false)
    (hxmin : listMinD (((s.world_inner_points ++ s.world_outer_points).map
      Prod.fst)) s.x_min = s.x_min)
    (hxmax : listMaxD (((s.world_inner_points ++ s.world_outer_points).map
      Prod.fst)) s.x_max = s.x_max)
    (hymin : listMinD (((s.world_inner_points ++ s.world_outer_points).map
      Prod.snd)) s.y_min = s.y_min)
    (hymax : listMaxD (((s.world_inner_points ++ s.world_outer_points).map
      Prod.snd)) s.y_max = s.y_max)
    (hW : 1 ≤ s.x_max - s.x_min) (hH : 1 ≤ s.y_max - s.y_min)
    (hiw : 1 ≤ screen_w - s.left_ui_margin - s.right_ui_margin)
    (hsh : 0 < screen_h) :
    ∀ p ∈ [(s.x_min, s.y_min), (s.x_min, s.y_max),
           (s.x_max, s.y_min), (s.x_max, s.y_max)],
      inUsableRect s.left_ui_margin s.right_ui_margin screen_w screen_h
        (world_to_screen s (update_scaling s screen_w screen_h).1
          (update_scaling s screen_w screen_h).2.1
          (update_scaling s screen_w screen_h).2.2 p) := by
  have hrotl : (s.world_inner_points ++ s.world_outer_points).map
      (rotate_about_center s) = s.world_inner_points ++ s.world_outer_points := by
    rw [List.map_congr_left (fun p _ => rotate_about_center_id s hcos hsin p)]
    exact List.map_id' _
  have hW0 : (0:ℚ) < s.x_max - s.x_min := by linarith
  have hH0 : (0:ℚ) < s.y_max - s.y_min := by linarith
  have hiw0 : (0:ℚ) < screen_w - s.left_ui_margin - s.right_ui_margin := by linarith
  have hts : update_scaling s screen_w screen_h =
      (min ((screen_w - s.left_ui_margin - s.right_ui_margin) * (1 - 2 * (1/20)) /
            (s.x_max - s.x_min))
           (screen_h * (1 - 2 * (1/20)) / (s.y_max - s.y_min)),
       s.left_ui_margin + (screen_w - s.left_ui_margin - s.right_ui_margin) / 2 -
         min ((screen_w - s.left_ui_margin - s.right_ui_margin) * (1 - 2 * (1/20)) /
              (s.x_max - s.x_min))
             (screen_h * (1 - 2 * (1/20)) / (s.y_max - s.y_min)) *
           ((s.x_min + s.x_max) / 2),
       screen_h / 2 -
         min ((screen_w - s.left_ui_margin - s.right_ui_margin) * (1 - 2 * (1/20)) /
              (s.x_max - s.x_min))
             (screen_h * (1 - 2 * (1/20)) / (s.y_max - s.y_min)) *
           ((s.y_min + s.y_max) / 2)) := by
    simp only [update_scaling]
    rw [hrotl, hxmin, hxmax, hymin, hymax,
      max_eq_right hW, max_eq_right hH, max_eq_right hiw]
  set scale := min ((screen_w - s.left_ui_margin - s.right_ui_margin) * (1 - 2 * (1/20)) /
      (s.x_max - s.x_min))
    (screen_h * (1 - 2 * (1/20)) / (s.y_max - s.y_min)) with hscale
  have hsc0 : 0 ≤ scale := by
    apply le_min
    · apply div_nonneg _ hW0.le
      have : (0:ℚ) ≤ 1 - 2 * (1/20) := by norm_num
      positivity
    · apply div_nonneg _ hH0.le
      positivity
  have hscW : scale * (s.x_max - s.x_min) ≤
      (screen_w - s.left_ui_margin - s.right_ui_margin) * (1 - 2 * (1/20)) := by
    have h1 : scale ≤ (screen_w - s.left_ui_margin - s.right_ui_margin) * (1 - 2 * (1/20)) /
        (s.x_max - s.x_min) := min_le_left _ _
    exact (le_div_iff₀ hW0).mp h1
  have hscH : scale * (s.y_max - s.y_min) ≤ screen_h * (1 - 2 * (1/20)) := by
    have h1 : scale ≤ screen_h * (1 - 2 * (1/20)) / (s.y_max - s.y_min) := min_le_right _ _
    exact (le_div_iff₀ hH0).mp h1
  have h0W : 0 ≤ scale * (s.x_max - s.x_min) := mul_nonneg hsc0 hW0.le
  have h0H : 0 ≤ scale * (s.y_max - s.y_min) := mul_nonneg hsc0 hH0.le
  intro p hp
  rw [hts]
  simp only [List.mem_cons, List.mem_singleton, List.not_mem_nil, or_false] at hp
  rcases hp with rfl | rfl | rfl | rfl <;>
  · simp only [world_to_screen, hrot, Bool.false_eq_true, if_false, inUsableRect]
    refine ⟨by linarith, by linarith, by linarith, by linarith⟩

/-- Witness for `viewport_corners_in_usable_rect`: a 10 × 10 world square
whose cached boundary points attain the bounds, in a 1000 × 1000
viewport. -/
def fitState : ViewportState :=
  { x_min := 0, x_max := 10, y_min := 0, y_max := 10,
    world_inner_points := [(0, 0)], world_outer_points := [(10, 10)],
    cos_rot := 1, sin_rot := 0, rot_nonzero := false,
    left_ui_margin := 340, right_ui_margin := 0 }

theorem viewport_corners_in_usable_rect_witness :
    inUsableRect fitState.left_ui_margin fitState.right_ui_margin 1000 1000
      (world_to_screen fitState (update_scaling fitState 1000 1000).1
        (update_scaling fitState 1000 1000).2.1
        (update_scaling fitState 1000 1000).2.2 (fitState.x_max, fitState.y_min)) :=
  viewport_corners_in_usable_rect fitState 1000 1000 rfl rfl rfl
    (by with_unfolding_all decide) (by with_unfolding_all decide)
    (by with_unfolding_all decide) (by with_unfolding_all decide)
    (by with_unfolding_all decide) (by with_unfolding_all decide)
    (by with_unfolding_all decide) (by with_unfolding_all decide)
    (fitState.x_max, fitState.y_min) (by simp)

end F1Replay
